import Mathlib

/-!
Verification of the blog-summarizer text pipeline: HTML content extraction,
extractive summarization, dictionary-based word substitution, word-count
metrics, and the request handler that composes them.  All definitions are
shallow embeddings of the corresponding TypeScript functions; machine strings
are modelled as Lean String values (lists of characters).
-/

/-! ## Character classes -/

/-- Whitespace characters matched by a whitespace class in a pattern
(ASCII range). -/
def isWsChar (c : Char) : Bool :=
  c == ' ' || c == '\t' || c == '\n' || c == '\r' || c == '\x0b' || c == '\x0c'

/-- Carriage-return and line-feed characters, the line-break class used when
splitting extracted text into lines. -/
def isCRLFChar (c : Char) : Bool :=
  c == '\r' || c == '\n'

/-- Word characters: ASCII letters, digits and underscore. -/
def isWordChar (c : Char) : Bool :=
  c.isAlphanum || c == '_'

/-- Sentence-terminal punctuation. -/
def isTermChar (c : Char) : Bool :=
  c == '.' || c == '!' || c == '?'

/-! ## Generic run-based splitting

The source splits strings with regular expressions whose separators are runs
of a character class.  Two variants are needed: the JavaScript split
semantics, which keeps empty chunks at the boundaries, and a token collector
that returns only the maximal runs of non-separator characters. -/

mutual

/-- JavaScript split on a separator-class run: chunk accumulator state.
The accumulator holds the current chunk reversed. -/
def jsSplitRunsAux (p : Char → Bool) (cur : List Char) : List Char → List (List Char)
  | [] => [cur.reverse]
  | c :: cs => if p c then cur.reverse :: jsSplitRunsSkip p cs else jsSplitRunsAux p (c :: cur) cs

/-- JavaScript split on a separator-class run: state inside a separator run. -/
def jsSplitRunsSkip (p : Char → Bool) : List Char → List (List Char)
  | [] => [[]]
  | c :: cs => if p c then jsSplitRunsSkip p cs else jsSplitRunsAux p [c] cs

end

/-- JavaScript split of a character list on maximal runs of characters
satisfying p, keeping empty boundary chunks exactly as the split method of
JavaScript strings does. -/
def jsSplitRuns (p : Char → Bool) (cs : List Char) : List (List Char) :=
  jsSplitRunsAux p [] cs

mutual

/-- Maximal runs of characters not satisfying p: scanning state between
runs. -/
def runsGo (p : Char → Bool) : List Char → List (List Char)
  | [] => []
  | c :: cs => if p c then runsGo p cs else runsCollect p [c] cs

/-- Maximal runs of characters not satisfying p: state inside a run, with the
current run held reversed. -/
def runsCollect (p : Char → Bool) (cur : List Char) : List Char → List (List Char)
  | [] => [cur.reverse]
  | c :: cs => if p c then cur.reverse :: runsGo p cs else runsCollect p (c :: cur) cs

end

/-- Collapse every maximal whitespace run to a single space, the semantics of
replacing a whitespace-run pattern globally with one space. -/
def collapseWs : List Char → List Char
  | [] => []
  | [c] => if isWsChar c then [' '] else [c]
  | c :: c2 :: cs =>
    if isWsChar c then
      (if isWsChar c2 then collapseWs (c2 :: cs) else ' ' :: collapseWs (c2 :: cs))
    else c :: collapseWs (c2 :: cs)

/-- Drop leading whitespace. -/
def trimLeft (l : List Char) : List Char := l.dropWhile isWsChar

/-- Drop trailing whitespace. -/
def trimRight (l : List Char) : List Char := (l.reverse.dropWhile isWsChar).reverse

/-- JavaScript string trim on a character list. -/
def trimL (l : List Char) : List Char := trimRight (trimLeft l)

/-- JavaScript string trim. -/
def trimS (s : String) : String := ⟨trimL s.data⟩

/-- Deduplication keeping the first occurrence, the insertion-order semantics
of collecting values into a JavaScript Set. -/
def dedupAux [BEq α] (seen : List α) : List α → List α
  | [] => []
  | a :: rest => if seen.contains a then dedupAux seen rest else a :: dedupAux (a :: seen) rest

/-- First-occurrence deduplication of a list. -/
def dedupFirst [BEq α] (l : List α) : List α := dedupAux ([] : List α) l

/-- Join character-list chunks with single spaces. -/
def joinChunks : List (List Char) → List Char
  | [] => []
  | [l] => l
  | l :: rest => l ++ ' ' :: joinChunks rest

/-- Join strings with single spaces, the join method with a one-space
separator. -/
def joinSpaceS : List String → String
  | [] => ""
  | [s] => s
  | s :: rest => s ++ " " ++ joinSpaceS rest

/-- Lowercase a character run and pack it into a string (ASCII lowercasing,
as applied by toLowerCase on the dictionary keys). -/
def lowerS (l : List Char) : String := ⟨l.map Char.toLower⟩

/-! ## Noise blocklist -/

/-- The three boilerplate phrases filtered by the noise pattern of the
source. -/
def noisePhrases : List String :=
  ["placeholder", "no-script",
   "Business Insider tells the innovative stories you want to know"]

/-- Whether the first list occurs as a contiguous infix of the second. -/
def isInfixL [BEq α] (pat : List α) : List α → Bool
  | [] => pat.isEmpty
  | a :: as => pat.isPrefixOf (a :: as) || isInfixL pat as

/-- Case-insensitive substring test, the semantics of a case-insensitive
regular-expression match of a literal phrase. -/
def containsCI (s p : String) : Bool :=
  isInfixL (p.data.map Char.toLower) (s.data.map Char.toLower)

/-- Whether a line matches the noise blocklist pattern of the source
(case-insensitive alternation of the three phrases). -/
def matchesNoise (l : List Char) : Bool :=
  noisePhrases.any (fun p => containsCI ⟨l⟩ p)

/-! ## Summarizer

Embedding of generateSummary: the content is scanned for sentence candidates
with a pattern matching one or more characters outside the terminal class
followed by an optional terminal punctuation character, the candidates are
trimmed, deduplicated in first-occurrence order, filtered by length and by
the noise blocklist, and the first three survivors are joined with single
spaces. -/

mutual

/-- Sentence tokenizer, state outside a candidate: characters that cannot
start a candidate (terminal punctuation and line feed) are skipped. -/
def sentSkip : List Char → List (List Char)
  | [] => []
  | c :: cs => if isTermChar c || c == '\n' then sentSkip cs else sentCollect [c] cs

/-- Sentence tokenizer, state inside a candidate, with the candidate held
reversed; a terminal punctuation character is appended to the candidate while
a line feed is not. -/
def sentCollect (cur : List Char) : List Char → List (List Char)
  | [] => [cur.reverse]
  | c :: cs =>
    if c == '\n' then cur.reverse :: sentSkip cs
    else if isTermChar c then (cur.reverse ++ [c]) :: sentSkip cs
    else sentCollect (c :: cur) cs

end

/-- All sentence candidates matched in a content string, in order. -/
def sentTok (cs : List Char) : List (List Char) := sentSkip cs

/-- The deduplicated, filtered sentence candidates of a content string:
trimmed, first occurrence kept, length strictly above 30 and not matching
the noise blocklist. -/
def survivors (content : String) : List String :=
  (dedupFirst ((sentTok content.data).map (fun l => (⟨trimL l⟩ : String)))).filter
    (fun s => 30 < s.length && !matchesNoise s.data)

/-- The sentences selected for the summary: the first three survivors. -/
def selectedSentences (content : String) : List String :=
  (survivors content).take 3

/-- generateSummary of the source: the selected sentences joined with single
spaces (the empty-string fallback of the source coincides with joining the
empty list). -/
def generateSummary (content : String) : String :=
  joinSpaceS (selectedSentences content)

/-! ## Lexical translator

Embedding of translateToUrdu: every maximal word-character run is looked up
in the dictionary by its lowercased form and replaced by the stored value
when the lookup produces a truthy value; every other character passes
through unchanged.  The dictionary of the source is a plain object literal,
so the bracket read is a JavaScript property access: it consults the own
properties first and then the properties the object inherits from the base
object prototype.  An inherited hit is a function or an object, hence
truthy, and the replace callback coerces it to its string form.  The
dictionary is generalized to a parameter, with the literal dictionary of
the source as translationDict. -/

/-- Own-property lookup by exact key on an association-list dictionary. -/
def dictLookup (d : List (String × String)) (k : String) : Option String :=
  (d.find? (fun p => p.1 == k)).map (fun p => p.2)

/-- The own property names of the base object prototype, inherited by every
plain object literal, each paired with the string coercion of the inherited
value as the node runtime of the source prints it.  The lookup key of the
source is always a lowercased word run, so only the two all-lowercase names
in this table can ever be hit; the mixed-case names are listed so the table
models the whole prototype. -/
def protoProps : List (String × String) :=
  [("constructor", "function Object() { [native code] }"),
   ("__defineGetter__", "function __defineGetter__() { [native code] }"),
   ("__defineSetter__", "function __defineSetter__() { [native code] }"),
   ("hasOwnProperty", "function hasOwnProperty() { [native code] }"),
   ("__lookupGetter__", "function __lookupGetter__() { [native code] }"),
   ("__lookupSetter__", "function __lookupSetter__() { [native code] }"),
   ("isPrototypeOf", "function isPrototypeOf() { [native code] }"),
   ("propertyIsEnumerable", "function propertyIsEnumerable() { [native code] }"),
   ("toString", "function toString() { [native code] }"),
   ("valueOf", "function valueOf() { [native code] }"),
   ("__proto__", "[object Object]"),
   ("toLocaleString", "function toLocaleString() { [native code] }")]

/-- JavaScript property read on the dictionary object: an own property
shadows the prototype, a missing own property falls back to the inherited
properties of the base object prototype. -/
def jsLookup (d : List (String × String)) (k : String) : Option String :=
  match dictLookup d k with
  | some v => some v
  | none => dictLookup protoProps k

/-- Replacement of a single word run: the lowercased run is read as a
property, and a falsy (empty or missing) result leaves the run unchanged,
the semantics of the lookup-or-original expression of the source; inherited
prototype hits are truthy and substitute their string coercion. -/
def applyDict (d : List (String × String)) (run : List Char) : List Char :=
  match jsLookup d (lowerS run) with
  | some v => if v = "" then run else v.data
  | none => run

mutual

/-- Translator scanning state outside a word run. -/
def trGo (d : List (String × String)) : List Char → List Char
  | [] => []
  | c :: cs => if isWordChar c then trWord d [c] cs else c :: trGo d cs

/-- Translator scanning state inside a word run, with the run held
reversed. -/
def trWord (d : List (String × String)) (cur : List Char) : List Char → List Char
  | [] => applyDict d cur.reverse
  | c :: cs =>
    if isWordChar c then trWord d (c :: cur) cs
    else applyDict d cur.reverse ++ c :: trGo d cs

end

/-- Word-granular dictionary substitution over a string. -/
def translateWith (d : List (String × String)) (text : String) : String :=
  ⟨trGo d text.data⟩

/-- The literal translation dictionary of the source. -/
def translationDict : List (String × String) :=
  [("the", "یہ"), ("is", "ہے")]

/-- translateToUrdu of the source: substitution with the static
dictionary. -/
def translateToUrdu (text : String) : String :=
  translateWith translationDict text

/-- The maximal word-character runs of a character list, in order. -/
def wordRuns (l : List Char) : List (List Char) :=
  runsGo (fun c => !isWordChar c) l

/-! ## Claim-side translator semantics

The claims describe the translator as a segment-wise map: the text splits
into alternating word runs and non-word spans, word runs whose lowercased
form is a dictionary key become the stored replacement, and everything else
is kept.  The following definitions state that description so it can be
compared with the translator of the source. -/

/-- A segment of a text: a maximal word-character run or a maximal non-word
span. -/
inductive Seg where
  | word (run : List Char)
  | sep (span : List Char)

mutual

/-- Segmentation of a character list, initial state. -/
def segGo : List Char → List Seg
  | [] => []
  | c :: cs => if isWordChar c then segWord [c] cs else segSep [c] cs

/-- Segmentation state inside a word run (run held reversed). -/
def segWord (cur : List Char) : List Char → List Seg
  | [] => [Seg.word cur.reverse]
  | c :: cs =>
    if isWordChar c then segWord (c :: cur) cs
    else Seg.word cur.reverse :: segSep [c] cs

/-- Segmentation state inside a non-word span (span held reversed). -/
def segSep (cur : List Char) : List Char → List Seg
  | [] => [Seg.sep cur.reverse]
  | c :: cs =>
    if isWordChar c then Seg.sep cur.reverse :: segWord [c] cs
    else segSep (c :: cur) cs

end

/-- The per-segment substitution described by the claims: a word run whose
lowercased form is a key becomes the stored replacement, any other segment is
kept verbatim. -/
def renderSegClaim (d : List (String × String)) : Seg → List Char
  | Seg.word run =>
    match dictLookup d (lowerS run) with
    | some v => v.data
    | none => run
  | Seg.sep span => span

/-- The translator as described by the claims: segment-wise substitution. -/
def specTranslate (d : List (String × String)) (text : String) : String :=
  ⟨((segGo text.data).map (renderSegClaim d)).flatten⟩

/-- The per-segment substitution with the full property read: a word run
whose lowercased form is an own key becomes the stored replacement, a run
hitting an inherited prototype property becomes the string coercion of the
inherited value, any other segment is kept verbatim. -/
def renderSegClaimJs (d : List (String × String)) : Seg → List Char
  | Seg.word run =>
    match jsLookup d (lowerS run) with
    | some v => v.data
    | none => run
  | Seg.sep span => span

/-- Segment-wise substitution with the full property read, to be compared
with the translator of the source. -/
def specTranslateJs (d : List (String × String)) (text : String) : String :=
  ⟨((segGo text.data).map (renderSegClaimJs d)).flatten⟩

/-! ## HTML document model

The extractor operates on a parsed document.  A document is modelled as a
forest of nodes; an element node carries its tag name, its attribute list and
its children.  Selector queries return all matching elements in document
order (pre-order), and the text of a selection is the concatenation of the
text contents of its elements, as the query and text facilities of the HTML
library behave. -/

mutual

/-- A DOM node: a text node or an element with tag, attributes and
children. -/
inductive Node where
  | text (s : String)
  | elem (tag : String) (attrs : List (String × String)) (children : NodeList)

/-- A list of sibling DOM nodes. -/
inductive NodeList where
  | nil
  | cons (head : Node) (tail : NodeList)

end

/-- Attribute lookup on an element attribute list. -/
def attrLookup (a : List (String × String)) (k : String) : Option String :=
  (a.find? (fun p => p.1 == k)).map (fun p => p.2)

/-- The class tokens of an element: the class attribute split on
whitespace. -/
def classTokens (a : List (String × String)) : List String :=
  (runsGo isWsChar ((attrLookup a "class").getD "").data).map (fun l => (⟨l⟩ : String))

/-- The selector forms used by the source: tag selectors, class selectors,
id selectors, and a tag selector refined by an exact attribute value. -/
inductive Selector where
  | tag (name : String)
  | cls (name : String)
  | id (name : String)
  | tagAttr (tagName attrName attrValue : String)

/-- Whether an element with the given tag and attributes matches a
selector. -/
def matchesSel : Selector → String → List (String × String) → Bool
  | Selector.tag n, t, _ => t == n
  | Selector.cls n, _, a => (classTokens a).contains n
  | Selector.id n, _, a => attrLookup a "id" == some n
  | Selector.tagAttr tn an av, t, a => t == tn && attrLookup a an == some av

/-- Whether an element is removed by the noise cleanup of the source: the
tags script, style, nav, header, footer, aside and img, and the classes
no-script and placeholder. -/
def isNoiseElem (t : String) (a : List (String × String)) : Bool :=
  ["script", "style", "nav", "header", "footer", "aside", "img"].contains t
    || (classTokens a).contains "no-script"
    || (classTokens a).contains "placeholder"

mutual

/-- Noise removal on a single node: a removed element disappears with its
whole subtree. -/
def removeNoiseN : Node → Option Node
  | Node.text s => some (Node.text s)
  | Node.elem t a ch =>
    if isNoiseElem t a then none else some (Node.elem t a (removeNoiseL ch))

/-- Noise removal on a node list. -/
def removeNoiseL : NodeList → NodeList
  | NodeList.nil => NodeList.nil
  | NodeList.cons n rest =>
    match removeNoiseN n with
    | none => removeNoiseL rest
    | some n2 => NodeList.cons n2 (removeNoiseL rest)

end

mutual

/-- All elements matching a selector inside one node, in document order
(an element containing matches contributes itself first). -/
def queryN (sel : Selector) : Node → List Node
  | Node.text _ => []
  | Node.elem t a ch =>
    (if matchesSel sel t a then [Node.elem t a ch] else []) ++ queryL sel ch

/-- All elements matching a selector inside a node list. -/
def queryL (sel : Selector) : NodeList → List Node
  | NodeList.nil => []
  | NodeList.cons n rest => queryN sel n ++ queryL sel rest

end

mutual

/-- The text content of a node: the concatenation of all descendant text
nodes. -/
def textN : Node → String
  | Node.text s => s
  | Node.elem _ _ ch => textL ch

/-- The text content of a node list. -/
def textL : NodeList → String
  | NodeList.nil => ""
  | NodeList.cons n rest => textN n ++ textL rest

end

/-- The text of a selection: the concatenated text of every selected
element. -/
def textOfSelection : List Node → String
  | [] => ""
  | n :: rest => textN n ++ textOfSelection rest

/-! ## Content extractor -/

/-- The ordered main-content selector list of the source. -/
def contentSelectors : List Selector :=
  [Selector.tag "article", Selector.cls "post-content", Selector.cls "entry-content",
   Selector.cls "content", Selector.tag "main", Selector.cls "main-content",
   Selector.id "content", Selector.cls "post-body"]

/-- The selector loop of the source: the first selector whose element match
is non-empty contributes its text and ends the loop; when no selector has a
match the result is the empty string. -/
def firstMatch : List Selector → NodeList → String
  | [], _ => ""
  | sel :: rest, cl =>
    if (queryL sel cl).isEmpty then firstMatch rest cl
    else textOfSelection (queryL sel cl)

/-- Content selection of the source: noise removal, then the selector loop,
then the body-text fallback whenever the loop produced an empty string. -/
def selectContent (doc : NodeList) : String :=
  let cl := removeNoiseL doc
  let c := firstMatch contentSelectors cl
  if c = "" then textOfSelection (queryL (Selector.tag "body") cl) else c

/-- Line normalization of the source: collapse whitespace runs to single
spaces, split on runs of carriage returns and line feeds, trim every line,
drop empty lines and lines matching the noise blocklist, deduplicate in
first-occurrence order and join with single spaces. -/
def normalizeContent (cs : List Char) : List Char :=
  let lines := (jsSplitRuns isCRLFChar (collapseWs cs)).map trimL
  let kept := lines.filter (fun l => !l.isEmpty && !matchesNoise l)
  joinChunks (dedupFirst kept)

/-- extractTextFromHtml of the source, on a parsed document. -/
def extractTextFromHtml (doc : NodeList) : String :=
  ⟨normalizeContent (selectContent doc).data⟩

/-- Title extraction of the source: the title tag text, else the first h1
text, else the Open-Graph title attribute, else a literal fallback; the
falsy check of the source makes every empty intermediate fall through. -/
def extractTitle (doc : NodeList) : String :=
  let t1 := trimS (textOfSelection (queryL (Selector.tag "title") doc))
  if t1 ≠ "" then t1 else
  let t2 := trimS (((queryL (Selector.tag "h1") doc).head?.map textN).getD "")
  if t2 ≠ "" then t2 else
  match (queryL (Selector.tagAttr "meta" "property" "og:title") doc).head? with
  | some (Node.elem _ a _) =>
    match attrLookup a "content" with
    | some v => if v = "" then "Untitled Article" else v
    | none => "Untitled Article"
  | _ => "Untitled Article"

/-! ## Metrics -/

/-- The word count of the source: the length of the split of the content on
whitespace runs (JavaScript split semantics, boundary chunks included). -/
def wordCountOf (content : String) : Nat :=
  (jsSplitRuns isWsChar content.data).length

/-- calculateReadTime of the source: the ceiling of the word count divided by
an average of 200 words per minute. -/
def calculateReadTime (wordCount : Nat) : Nat :=
  (wordCount + 199) / 200

/-- Claim-side word counting: the number of whitespace-delimited tokens,
that is the number of maximal non-whitespace runs of the content. -/
def whitespaceTokens (cs : List Char) : List (List Char) :=
  runsGo isWsChar cs

/-- JavaScript substring from the start, by characters. -/
def strTake (s : String) (n : Nat) : String := ⟨s.data.take n⟩

/-! ## Request handler

Embedding of the POST handler: presence check of the url field, syntactic
url validation, page fetch, and the processing pipeline with its error
responses.  Url validation and the fetch are external collaborators and are
passed as functions; the result records how many times each collaborator was
invoked. -/

/-- The success record assembled by the handler. -/
structure ProcessedBlog where
  url : String
  title : String
  content : String
  summary : String
  urduSummary : String
  wordCount : Nat
  readTime : Nat
deriving DecidableEq

/-- A handler response: an error body with a status code, or the processed
record with status 200. -/
inductive Response where
  | error (msg : String) (status : Nat)
  | ok (blog : ProcessedBlog)
deriving DecidableEq

/-- Outcome of the page fetch collaborator: a parsed document on success, or
one of the network failures distinguished by the source. -/
inductive FetchOutcome where
  | success (doc : NodeList)
  | hostNotFound
  | connRefused
  | status404
  | status403
  | timedOut
  | otherFailure

/-- The error mapping of the catch block of the source. -/
def mapFetchFailure : FetchOutcome → Response
  | FetchOutcome.hostNotFound =>
    Response.error "Could not connect to the website. Please check the URL." 400
  | FetchOutcome.connRefused =>
    Response.error "Could not connect to the website. Please check the URL." 400
  | FetchOutcome.status404 => Response.error "The webpage was not found (404)." 400
  | FetchOutcome.status403 =>
    Response.error "Access forbidden. The website may be blocking automated requests." 400
  | FetchOutcome.timedOut =>
    Response.error "Request timeout. The website took too long to respond." 400
  | _ => Response.error "Failed to process the blog. Please try again." 500

/-- The processing of a fetched document by the source: title extraction,
content extraction with its insufficient-content guard, summary generation
with its empty-summary guard, translation, metrics, and the assembled
record. -/
def handleHtml (url : String) (doc : NodeList) : Response :=
  let title := extractTitle doc
  let content := extractTextFromHtml doc
  if content = "" ∨ content.length < 100 then
    Response.error "Could not extract sufficient content from the webpage" 400
  else
    let summary := generateSummary content
    if summary = "" then
      Response.error "Could not generate summary from the content" 400
    else
      let urduSummary := translateToUrdu summary
      let wordCount := wordCountOf content
      let readTime := calculateReadTime wordCount
      Response.ok
        { url := url, title := strTake title 200, content := strTake content 5000,
          summary := summary, urduSummary := urduSummary,
          wordCount := wordCount, readTime := readTime }

/-- A handler run: the response together with the number of invocations of
the url-parsing collaborator and of the fetch collaborator. -/
structure PostResult where
  response : Response
  fetchCalls : Nat
  urlParses : Nat
deriving DecidableEq

/-- The POST handler of the source over its collaborators: a missing or
empty url fails the presence check before any parsing, an url rejected by
the url parser fails validation before any fetch, and otherwise the fetched
outcome is processed. -/
def POSTmodel (urlField : Option String) (validUrl : String → Bool)
    (fetch : String → FetchOutcome) : PostResult :=
  match urlField with
  | none => ⟨Response.error "URL is required" 400, 0, 0⟩
  | some url =>
    if url = "" then ⟨Response.error "URL is required" 400, 0, 0⟩
    else if validUrl url = false then ⟨Response.error "Invalid URL format" 400, 0, 1⟩
    else
      match fetch url with
      | FetchOutcome.success doc => ⟨handleHtml url doc, 1, 1⟩
      | f => ⟨mapFetchFailure f, 1, 1⟩

/-! ## Claim-side dictionary conditions -/

/-- The side condition as the claims state it: every replacement value is
absent from the key set of the dictionary. -/
def claimedValuesAbsent (d : List (String × String)) : Bool :=
  d.all (fun p => d.all (fun q => !(q.1 == p.2)))

/-- The strengthened side condition: every maximal word-character run of
every replacement value, lowercased, misses the whole property read, own
keys and inherited prototype names alike; the inherited prototype values
count as replacement values, since a prototype hit substitutes them. -/
def valuesRunsAbsent (d : List (String × String)) : Bool :=
  (d ++ protoProps).all
    (fun p => (wordRuns p.2.data).all (fun r => (jsLookup d (lowerS r)).isNone))

/-- Whether every replacement value of a dictionary is non-empty. -/
def valuesNonempty (d : List (String × String)) : Bool :=
  d.all (fun p => !(p.2 == ""))

/-! ## Concrete example instances used by witnesses and counterexamples -/

/-- A document with an article element whose text is empty next to a
div of class content with text. -/
def exDocC2 : NodeList :=
  NodeList.cons (Node.elem "body" []
    (NodeList.cons (Node.elem "article" [] NodeList.nil)
      (NodeList.cons (Node.elem "div" [("class", "content")]
        (NodeList.cons (Node.text "x") NodeList.nil)) NodeList.nil))) NodeList.nil

/-- A document with a non-empty article element next to a div of class
content with different text. -/
def exDocC2w : NodeList :=
  NodeList.cons (Node.elem "body" []
    (NodeList.cons (Node.elem "article" []
      (NodeList.cons (Node.text "Full article text used for the selector check") NodeList.nil))
      (NodeList.cons (Node.elem "div" [("class", "content")]
        (NodeList.cons (Node.text "x") NodeList.nil)) NodeList.nil))) NodeList.nil

/-- A document whose extractable content is far below the length gate. -/
def exDocC6 : NodeList :=
  NodeList.cons (Node.elem "body" [] (NodeList.cons (Node.text "hi") NodeList.nil)) NodeList.nil

/-- A document whose extractable content passes the length gate. -/
def exDocC9 : NodeList :=
  NodeList.cons (Node.elem "body" []
    (NodeList.cons (Node.text
      "This body holds a rather long single line of readable content so that the extraction length gate of one hundred characters is passed.")
      NodeList.nil)) NodeList.nil

/-- A content string with one sentence above the length floor and one
below it. -/
def exContentC3 : String :=
  "This first sentence is definitely long enough to survive. Tiny one."

/-- The two-entry dictionary of the translator example of the claims. -/
def exDict : List (String × String) :=
  [("hello", "سلام"), ("world", "دنیا")]

/-- A dictionary with an empty replacement value. -/
def exDictEmptyVal : List (String × String) := [("a", "")]

/-- A dictionary whose replacement value contains another key as a word
run. -/
def exDictC4 : List (String × String) := [("a", "b c"), ("b", "x")]

/-- A dictionary whose replacement value names an inherited prototype
property. -/
def exDictProto : List (String × String) := [("x", "constructor")]

/-- An url-parsing collaborator rejecting every string. -/
def exUrlFalse : String → Bool := fun _ => false

/-- A fetch collaborator returning an empty document. -/
def exFetch : String → FetchOutcome := fun _ => FetchOutcome.success NodeList.nil

/-! ## Lemmas about whitespace collapsing and line splitting -/

/-- Every whitespace character surviving collapseWs is a single space. -/
theorem collapseWs_ws_eq_space :
    ∀ l c, c ∈ collapseWs l → isWsChar c = true → c = ' '
  | [], c => by intro h; simp [collapseWs] at h
  | [c0], c => by
    intro h hw
    by_cases h0 : isWsChar c0
    · simp [collapseWs, h0] at h; simp [h]
    · simp [collapseWs, h0] at h; subst h; exact absurd hw h0
  | c0 :: c2 :: cs, c => by
    intro h hw
    by_cases h0 : isWsChar c0
    · by_cases h2 : isWsChar c2
      · simp only [collapseWs, h0, h2, if_true] at h
        exact collapseWs_ws_eq_space (c2 :: cs) c h hw
      · simp only [collapseWs, h0, h2, if_true, if_false, Bool.false_eq_true,
          List.mem_cons] at h
        rcases h with h | h
        · simp [h]
        · exact collapseWs_ws_eq_space (c2 :: cs) c h hw
    · simp only [collapseWs, h0, if_false, Bool.false_eq_true, List.mem_cons] at h
      rcases h with h | h
      · subst h; exact absurd hw h0
      · exact collapseWs_ws_eq_space (c2 :: cs) c h hw

/-- Carriage returns and line feeds are whitespace. -/
theorem crlf_is_ws {c : Char} (h : isCRLFChar c = true) : isWsChar c = true := by
  simp [isCRLFChar] at h
  rcases h with h | h <;> simp [isWsChar, h]

/-- No carriage return or line feed survives collapseWs. -/
theorem collapseWs_no_crlf : ∀ l c, c ∈ collapseWs l → isCRLFChar c = false := by
  intro l c h
  by_contra hc
  have hc2 : isCRLFChar c = true := by
    cases h2 : isCRLFChar c
    · exact absurd h2 hc
    · rfl
  have hsp := collapseWs_ws_eq_space l c h (crlf_is_ws hc2)
  subst hsp
  simp [isCRLFChar] at hc2

/-- On input without separator characters the split accumulator emits one
chunk. -/
theorem jsSplitRunsAux_no_sep (p : Char → Bool) :
    ∀ l cur, (∀ c ∈ l, p c = false) → jsSplitRunsAux p cur l = [cur.reverse ++ l] := by
  intro l
  induction l with
  | nil => intro cur _; simp [jsSplitRunsAux]
  | cons c cs ih =>
    intro cur h
    have hc : p c = false := h c (by simp)
    simp only [jsSplitRunsAux, hc, if_false, Bool.false_eq_true]
    rw [ih (c :: cur) (fun d hd => h d (by simp [hd]))]
    simp

/-- On input without separator characters the split yields the input as its
only chunk. -/
theorem jsSplitRuns_no_sep (p : Char → Bool) (l : List Char)
    (h : ∀ c ∈ l, p c = false) : jsSplitRuns p l = [l] := by
  unfold jsSplitRuns
  rw [jsSplitRunsAux_no_sep p l [] h]
  simp

/-- Deduplicating a singleton list keeps it. -/
theorem dedupFirst_singleton [BEq α] (a : α) : dedupFirst [a] = [a] := by
  simp [dedupFirst, dedupAux]

/-- The normalization of the source reduces to a single trimmed line kept or
dropped: collapsing whitespace leaves no line breaks, so the line split is a
single line. -/
theorem normalizeContent_eq (cs : List Char) :
    normalizeContent cs =
      if !(trimL (collapseWs cs)).isEmpty && !matchesNoise (trimL (collapseWs cs))
      then trimL (collapseWs cs) else [] := by
  unfold normalizeContent
  rw [jsSplitRuns_no_sep isCRLFChar (collapseWs cs) (collapseWs_no_crlf cs)]
  simp only [List.map_cons, List.map_nil, List.filter]
  cases hk : !(trimL (collapseWs cs)).isEmpty && !matchesNoise (trimL (collapseWs cs))
  · simp [dedupFirst, dedupAux, joinChunks]
  · simp [dedupFirst_singleton, joinChunks]

/-! ## Lemmas about trimming -/

/-- The head of a dropWhile result fails the predicate. -/
theorem dropWhile_head_not (p : α → Bool) :
    ∀ (l : List α) (c : α), (l.dropWhile p).head? = some c → p c = false
  | [], c => by intro h; simp [List.dropWhile] at h
  | a :: as, c => by
    intro h
    by_cases ha : p a
    · rw [List.dropWhile_cons_of_pos ha] at h
      exact dropWhile_head_not p as c h
    · rw [List.dropWhile_cons_of_neg ha] at h
      have hac : a = c := by simpa using h
      subst hac
      exact Bool.eq_false_iff.mpr ha

/-- trimRight is a prefix of its input. -/
theorem trimRight_isPrefixOf (l : List Char) : trimRight l <+: l := by
  unfold trimRight
  have h := @List.dropWhile_suffix Char l.reverse isWsChar
  have h2 : (l.reverse.dropWhile isWsChar).reverse.reverse <:+ l.reverse := by
    simpa using h
  have h3 := (@List.reverse_suffix Char ((l.reverse.dropWhile isWsChar).reverse) l).mp h2
  exact h3

/-- A non-empty prefix has the same head. -/
theorem prefixOf_head {l t : List α} (h : t <+: l) (hne : t ≠ []) :
    t.head? = l.head? := by
  obtain ⟨r, rfl⟩ := h
  cases t with
  | nil => exact absurd rfl hne
  | cons a as => simp

/-- The head of a trimmed non-empty list is not whitespace. -/
theorem trimL_head (l : List Char) (c : Char) (h : (trimL l).head? = some c) :
    isWsChar c = false := by
  unfold trimL at h
  have hne : trimRight (trimLeft l) ≠ [] := by
    intro hnil; rw [hnil] at h; simp at h
  rw [prefixOf_head (trimRight_isPrefixOf (trimLeft l)) hne] at h
  exact dropWhile_head_not isWsChar l c h

/-- The last element of a trimmed non-empty list is not whitespace. -/
theorem trimL_getLast (l : List Char) (c : Char) (h : (trimL l).getLast? = some c) :
    isWsChar c = false := by
  unfold trimL trimRight at h
  rw [List.getLast?_reverse] at h
  exact dropWhile_head_not isWsChar (trimLeft l).reverse c h

/-- dropWhile is the identity when the head fails the predicate. -/
theorem dropWhile_eq_self_of_head (p : α → Bool) (l : List α)
    (h : ∀ c, l.head? = some c → p c = false) : l.dropWhile p = l := by
  cases l with
  | nil => rfl
  | cons a as =>
    have ha : p a = false := h a (by simp)
    simp [List.dropWhile_cons, ha]

/-- Trimming is idempotent. -/
theorem trimL_trimL (l : List Char) : trimL (trimL l) = trimL l := by
  have h1 : trimLeft (trimL l) = trimL l := by
    unfold trimLeft
    exact dropWhile_eq_self_of_head isWsChar (trimL l) (trimL_head l)
  show trimRight (trimLeft (trimL l)) = trimL l
  rw [h1]
  unfold trimRight
  have h2 : (trimL l).reverse.dropWhile isWsChar = (trimL l).reverse := by
    apply dropWhile_eq_self_of_head
    intro c hc
    rw [List.head?_reverse] at hc
    exact trimL_getLast l c hc
  rw [h2, List.reverse_reverse]

/-! ## Split versus token runs on trimmed input -/

/-- On input whose last character is not a separator, the JavaScript split
states agree with the token-run states. -/
theorem splitRuns_runs_joint (p : Char → Bool) :
    ∀ (n : Nat) (l : List Char), l.length ≤ n →
      (((∀ c, l.getLast? = some c → p c = false) →
        ∀ cur, jsSplitRunsAux p cur l = runsCollect p cur l) ∧
       (l ≠ [] → (∀ c, l.getLast? = some c → p c = false) →
        jsSplitRunsSkip p l = runsGo p l)) := by
  intro n
  induction n with
  | zero =>
    intro l hl
    have hnil : l = [] := List.length_eq_zero.mp (Nat.le_zero.mp hl)
    subst hnil
    constructor
    · intro _ cur; simp [jsSplitRunsAux, runsCollect]
    · intro h; exact absurd rfl h
  | succ n ih =>
    intro l hl
    cases l with
    | nil =>
      constructor
      · intro _ cur; simp [jsSplitRunsAux, runsCollect]
      · intro h; exact absurd rfl h
    | cons c cs =>
      have hcs : cs.length ≤ n := by
        simp only [List.length_cons] at hl
        exact Nat.lt_succ_iff.mp (Nat.lt_of_lt_of_le (Nat.lt_succ_self _) hl)
      have ihcs := ih cs hcs
      have hlast2 : (∀ x, (c :: cs).getLast? = some x → p x = false) →
          ∀ x, cs.getLast? = some x → p x = false := by
        intro hlast x hx
        cases cs with
        | nil => simp at hx
        | cons d ds => exact hlast x (by rw [List.getLast?_cons_cons]; exact hx)
      have hcsne : (∀ x, (c :: cs).getLast? = some x → p x = false) →
          p c = true → cs ≠ [] := by
        intro hlast hc hnil
        subst hnil
        have := hlast c (by simp)
        rw [this] at hc
        exact Bool.false_ne_true hc
      constructor
      · intro hlast cur
        by_cases hc : p c = true
        · simp only [jsSplitRunsAux, runsCollect, hc, if_true]
          rw [ihcs.2 (hcsne hlast hc) (hlast2 hlast)]
        · have hcf : p c = false := Bool.eq_false_iff.mpr hc
          simp only [jsSplitRunsAux, runsCollect, hcf, Bool.false_eq_true, if_false]
          exact ihcs.1 (hlast2 hlast) (c :: cur)
      · intro _ hlast
        by_cases hc : p c = true
        · simp only [jsSplitRunsSkip, runsGo, hc, if_true]
          exact ihcs.2 (hcsne hlast hc) (hlast2 hlast)
        · have hcf : p c = false := Bool.eq_false_iff.mpr hc
          simp only [jsSplitRunsSkip, runsGo, hcf, Bool.false_eq_true, if_false]
          exact ihcs.1 (hlast2 hlast) [c]

/-- On non-empty input that neither starts nor ends with a separator, the
JavaScript split produces exactly the maximal non-separator runs. -/
theorem jsSplitRuns_eq_runsGo (p : Char → Bool) (l : List Char) (hne : l ≠ [])
    (hhead : ∀ c, l.head? = some c → p c = false)
    (hlast : ∀ c, l.getLast? = some c → p c = false) :
    jsSplitRuns p l = runsGo p l := by
  cases l with
  | nil => exact absurd rfl hne
  | cons c cs =>
    have hc : p c = false := hhead c (by simp)
    have hlast2 : ∀ x, cs.getLast? = some x → p x = false := by
      intro x hx
      cases cs with
      | nil => simp at hx
      | cons d ds => exact hlast x (by rw [List.getLast?_cons_cons]; exact hx)
    unfold jsSplitRuns
    simp only [jsSplitRunsAux, runsGo, hc, Bool.false_eq_true, if_false]
    exact (splitRuns_runs_joint p cs.length cs (Nat.le_refl _)).1 hlast2 [c]

/-! ## Structure of the extractor output -/

/-- The extractor output is empty or the single trimmed collapsed line, and
in the second case it does not match the noise blocklist. -/
theorem extractOutput_cases (doc : NodeList) :
    extractTextFromHtml doc = "" ∨
      ((extractTextFromHtml doc).data = trimL (collapseWs (selectContent doc).data) ∧
       matchesNoise (extractTextFromHtml doc).data = false) := by
  unfold extractTextFromHtml
  rw [normalizeContent_eq]
  cases hk : !(trimL (collapseWs (selectContent doc).data)).isEmpty &&
      !matchesNoise (trimL (collapseWs (selectContent doc).data)) with
  | false => left; rfl
  | true =>
    right
    constructor
    · rfl
    · have h2 := (Bool.and_eq_true _ _).mp hk
      have h3 := h2.2
      cases hm : matchesNoise (trimL (collapseWs (selectContent doc).data))
      · simpa using hm
      · rw [hm] at h3; simp at h3

/-- C1: for every HTML document, the content produced by the extractor
contains no occurrence of any noise-blocklist phrase, matched
case-insensitively as a substring. -/
theorem claim_C1_extractor_noise_free (doc : NodeList) :
    noisePhrases.all (fun p => !containsCI (extractTextFromHtml doc) p) = true := by
  rcases extractOutput_cases doc with h | ⟨_, hnoise⟩
  · rw [h]; decide
  · simp only [List.all_eq_true]
    intro p hp
    cases hc : containsCI (extractTextFromHtml doc) p
    · rfl
    · exfalso
      have htrue : matchesNoise (extractTextFromHtml doc).data = true := by
        unfold matchesNoise
        exact List.any_eq_true.mpr ⟨p, hp, hc⟩
      rw [htrue] at hnoise
      simp at hnoise

/-! ## Lemmas for the summarizer claims -/

/-- Deduplication yields a subset of the input. -/
theorem dedupAux_subset [BEq α] :
    ∀ (l : List α) (seen : List α), dedupAux seen l ⊆ l
  | [], _ => by simp [dedupAux]
  | a :: rest, seen => by
    by_cases h : seen.contains a
    · simp only [dedupAux, h, if_true]
      exact (dedupAux_subset rest seen).trans (List.subset_cons_self a rest)
    · simp only [dedupAux, h, if_false]
      intro x hx
      rcases List.mem_cons.mp hx with hx | hx
      · exact List.mem_cons.mpr (Or.inl hx)
      · exact List.mem_cons.mpr (Or.inr (dedupAux_subset rest (a :: seen) hx))

/-- Every survivor is a trimmed sentence candidate and passes the length and
noise filters. -/
theorem survivors_mem (content : String) (s : String) (hs : s ∈ survivors content) :
    trimS s = s ∧ 30 < s.length ∧ matchesNoise s.data = false := by
  unfold survivors at hs
  have h2 := List.mem_filter.mp hs
  have hmem := dedupAux_subset _ _ h2.1
  have hfil := h2.2
  simp only [Bool.and_eq_true, Bool.not_eq_true', decide_eq_true_eq] at hfil
  constructor
  · rcases List.mem_map.mp hmem with ⟨raw, _, hraw⟩
    rw [← hraw]
    show (⟨trimL (trimL raw)⟩ : String) = ⟨trimL raw⟩
    rw [trimL_trimL]
  · exact ⟨by exact_mod_cast hfil.1, hfil.2⟩

/-- C3: for every content string the summary is the join, with single
spaces, of the selected sentences; there are at most three of them, they
appear in their original first-occurrence order, and each selected sentence
is longer than 30 characters after trimming and does not match the noise
blocklist. -/
theorem claim_C3_summary_shape (content : String) :
    generateSummary content = joinSpaceS (selectedSentences content) ∧
    (selectedSentences content).length ≤ 3 ∧
    List.Sublist (selectedSentences content)
      (dedupFirst ((sentTok content.data).map (fun l => (⟨trimL l⟩ : String)))) ∧
    ∀ s ∈ selectedSentences content,
      30 < (trimS s).length ∧ matchesNoise s.data = false := by
  refine ⟨rfl, ?_, ?_, ?_⟩
  · exact List.length_take_le 3 (survivors content)
  · exact (List.take_sublist 3 (survivors content)).trans (List.filter_sublist _)
  · intro s hs
    have hmem : s ∈ survivors content := List.mem_of_mem_take hs
    obtain ⟨htrim, hlen, hnoise⟩ := survivors_mem content s hmem
    rw [htrim]
    exact ⟨hlen, hnoise⟩

/-- Witness for C3 at a concrete content string: a selected sentence, its
length bound and its noise freedom. -/
theorem claim_C3_witness :
    "This first sentence is definitely long enough to survive." ∈
      selectedSentences exContentC3 ∧
    (30 < (trimS "This first sentence is definitely long enough to survive.").length ∧
      matchesNoise "This first sentence is definitely long enough to survive.".data = false) := by
  refine ⟨by decide, ?_⟩
  exact (claim_C3_summary_shape exContentC3).2.2.2
    "This first sentence is definitely long enough to survive." (by decide)

/-! ## Lemmas for the selector fallback claim -/

/-- Selectors with empty element matches are skipped by the selector loop. -/
theorem firstMatch_skip :
    ∀ (pre rest : List Selector) (cl : NodeList),
      pre.all (fun s => (queryL s cl).isEmpty) = true →
      firstMatch (pre ++ rest) cl = firstMatch rest cl
  | [], rest, cl => by intro _; rfl
  | s :: pre, rest, cl => by
    intro h
    rw [List.all_cons, Bool.and_eq_true] at h
    have hs : (queryL s cl).isEmpty = true := h.1
    have hrest : pre.all (fun s => (queryL s cl).isEmpty) = true := h.2
    show firstMatch ((s :: pre) ++ rest) cl = firstMatch rest cl
    simp only [List.cons_append, firstMatch, hs, if_true]
    exact firstMatch_skip pre rest cl hrest

/-- C2 counterexample: a document with an article element whose text is
empty next to a div of class content with different, non-empty text.  The
article region and the content region have different text, yet the selected
content is not the article text but equals the generic content text, via the
body fallback of the source. -/
theorem claim_C2_counterexample :
    textOfSelection (queryL (Selector.tag "article") (removeNoiseL exDocC2)) ≠
      textOfSelection (queryL (Selector.cls "content") (removeNoiseL exDocC2)) ∧
    selectContent exDocC2 ≠
      textOfSelection (queryL (Selector.tag "article") (removeNoiseL exDocC2)) ∧
    selectContent exDocC2 =
      textOfSelection (queryL (Selector.cls "content") (removeNoiseL exDocC2)) := by
  refine ⟨by decide, by decide, by decide⟩

/-- C2 (amended): whenever every selector before a given selector in the
ordered list has an empty element match and the given selector has a
non-empty element match with non-empty text, the selected content is exactly
the text of that selector match — in particular, a document whose article
region has non-empty text always selects the article text, and later
selectors are never consulted; an empty-text match however falls back to the
body text. -/
theorem claim_C2_first_selector_wins (doc : NodeList) (pre : List Selector)
    (sel : Selector) (post : List Selector)
    (hsels : contentSelectors = pre ++ sel :: post)
    (hpre : pre.all (fun s => (queryL s (removeNoiseL doc)).isEmpty) = true)
    (hmatch : (queryL sel (removeNoiseL doc)).isEmpty = false)
    (htext : textOfSelection (queryL sel (removeNoiseL doc)) ≠ "") :
    selectContent doc = textOfSelection (queryL sel (removeNoiseL doc)) := by
  have hdef : selectContent doc =
      (if firstMatch contentSelectors (removeNoiseL doc) = ""
       then textOfSelection (queryL (Selector.tag "body") (removeNoiseL doc))
       else firstMatch contentSelectors (removeNoiseL doc)) := rfl
  rw [hdef, hsels, firstMatch_skip pre (sel :: post) _ hpre]
  simp only [firstMatch, hmatch, Bool.false_eq_true, if_false]
  rw [if_neg htext]

/-- Witness for the amended C2 at a concrete document: the article selector
is first, matches non-emptily with non-empty text, and the selected content
is the article text. -/
theorem claim_C2_witness :
    (queryL (Selector.tag "article") (removeNoiseL exDocC2w)).isEmpty = false ∧
    textOfSelection (queryL (Selector.tag "article") (removeNoiseL exDocC2w)) ≠ "" ∧
    selectContent exDocC2w =
      textOfSelection (queryL (Selector.tag "article") (removeNoiseL exDocC2w)) := by
  refine ⟨by decide, by decide, ?_⟩
  exact claim_C2_first_selector_wins exDocC2w []
    (Selector.tag "article")
    [Selector.cls "post-content", Selector.cls "entry-content", Selector.cls "content",
     Selector.tag "main", Selector.cls "main-content", Selector.id "content",
     Selector.cls "post-body"]
    rfl (by decide) (by decide) (by decide)

/-! ## Lemmas for the handler claims -/

/-- The handler as a decision tree over the extracted content, with the
empty-content disjunct absorbed into the length gate on the error side. -/
theorem handleHtml_eq (url : String) (doc : NodeList) :
    handleHtml url doc =
      (if extractTextFromHtml doc = "" ∨ (extractTextFromHtml doc).length < 100 then
         Response.error "Could not extract sufficient content from the webpage" 400
       else if generateSummary (extractTextFromHtml doc) = "" then
         Response.error "Could not generate summary from the content" 400
       else Response.ok
         { url := url, title := strTake (extractTitle doc) 200,
           content := strTake (extractTextFromHtml doc) 5000,
           summary := generateSummary (extractTextFromHtml doc),
           urduSummary := translateToUrdu (generateSummary (extractTextFromHtml doc)),
           wordCount := wordCountOf (extractTextFromHtml doc),
           readTime := calculateReadTime (wordCountOf (extractTextFromHtml doc)) }) := by
  rfl

/-- The head of a space-join is no longer than the join. -/
theorem joinSpaceS_head_le :
    ∀ (s : String) (rest : List String), s.length ≤ (joinSpaceS (s :: rest)).length
  | _, [] => Nat.le_refl _
  | s, r :: rs => by
    show s.length ≤ (s ++ " " ++ joinSpaceS (r :: rs)).length
    rw [String.length_append, String.length_append]
    omega

/-- The summary is empty exactly when no sentence candidate survives
filtering. -/
theorem generateSummary_eq_empty_iff (content : String) :
    generateSummary content = "" ↔ survivors content = [] := by
  constructor
  · intro h
    rcases hsv : survivors content with _ | ⟨s, rest⟩
    · rfl
    · exfalso
      have hs : s ∈ survivors content := by rw [hsv]; exact List.mem_cons_self s rest
      have hlen := (survivors_mem content s hs).2.1
      have hgen : generateSummary content = joinSpaceS (s :: rest.take 2) := by
        unfold generateSummary selectedSentences
        rw [hsv]
        rfl
      have hle := joinSpaceS_head_le s (rest.take 2)
      rw [← hgen, h] at hle
      have h0 : ("" : String).length = 0 := rfl
      omega
  · intro h
    unfold generateSummary selectedSentences
    rw [h]
    rfl

/-- C6: processing a fetched document fails with the insufficient-content
response, status 400, exactly when the normalized extracted content is
shorter than 100 characters; in that case the result is that error response
and not a processed record. -/
theorem claim_C6_extraction_gate (url : String) (doc : NodeList) :
    (handleHtml url doc =
      Response.error "Could not extract sufficient content from the webpage" 400) ↔
    (extractTextFromHtml doc).length < 100 := by
  rw [handleHtml_eq]
  constructor
  · intro h
    split_ifs at h with h1 h2
    · rcases h1 with he | hl
      · rw [he]; decide
      · exact hl
    · exfalso
      injection h with hm _
      exact absurd hm (by decide)
  · intro hl
    rw [if_pos (Or.inr hl)]

/-- C7: the summary of a content string is empty exactly when no sentence
candidate survives filtering, and processing a fetched document fails with
the summary-error response, status 400, exactly when the content passed the
length gate and no candidate survived; otherwise the summary is
non-empty. -/
theorem claim_C7_summarizer_gate :
    (∀ content : String, (generateSummary content = "" ↔ survivors content = [])) ∧
    ∀ (url : String) (doc : NodeList),
      ((handleHtml url doc =
        Response.error "Could not generate summary from the content" 400) ↔
       (100 ≤ (extractTextFromHtml doc).length ∧
        survivors (extractTextFromHtml doc) = [])) := by
  refine ⟨generateSummary_eq_empty_iff, ?_⟩
  intro url doc
  rw [handleHtml_eq]
  constructor
  · intro h
    split_ifs at h with h1 h2
    · exfalso
      injection h with hm _
      exact absurd hm (by decide)
    · push_neg at h1
      exact ⟨h1.2, (generateSummary_eq_empty_iff _).mp h2⟩
  · intro ⟨hge, hsv⟩
    have h1 : ¬(extractTextFromHtml doc = "" ∨ (extractTextFromHtml doc).length < 100) := by
      push_neg
      refine ⟨?_, hge⟩
      intro he
      rw [he] at hge
      exact absurd hge (by decide)
    rw [if_neg h1, if_pos ((generateSummary_eq_empty_iff _).mpr hsv)]

/-- C10: a request body without an url field, or with an empty url, yields
the URL-is-required response with status 400, with no url-parsing attempt
and no fetch attempt. -/
theorem claim_C10_url_required (validUrl : String → Bool) (fetch : String → FetchOutcome) :
    POSTmodel none validUrl fetch = ⟨Response.error "URL is required" 400, 0, 0⟩ ∧
    POSTmodel (some "") validUrl fetch = ⟨Response.error "URL is required" 400, 0, 0⟩ :=
  ⟨rfl, rfl⟩

/-- C8 counterexample: the empty string is rejected by the url parser, so it
is not a syntactically well-formed url, yet the handler responds with the
URL-is-required message, not the invalid-format message, and performs no
parse attempt at all. -/
theorem claim_C8_counterexample :
    exUrlFalse "" = false ∧
    POSTmodel (some "") exUrlFalse exFetch =
      ⟨Response.error "URL is required" 400, 0, 0⟩ ∧
    Response.error "URL is required" 400 ≠ Response.error "Invalid URL format" 400 :=
  ⟨rfl, rfl, by decide⟩

/-- C8 (amended): for every non-empty input url string rejected by the url
parser, the handler returns the invalid-format response with status 400 and
performs zero fetch attempts; url validation happens before any network
access. -/
theorem claim_C8_validation_before_fetch (url : String) (validUrl : String → Bool)
    (fetch : String → FetchOutcome) (hne : url ≠ "") (hbad : validUrl url = false) :
    POSTmodel (some url) validUrl fetch =
      ⟨Response.error "Invalid URL format" 400, 0, 1⟩ := by
  have hdef : POSTmodel (some url) validUrl fetch =
      (if url = "" then ⟨Response.error "URL is required" 400, 0, 0⟩
       else if validUrl url = false then ⟨Response.error "Invalid URL format" 400, 0, 1⟩
       else match fetch url with
         | FetchOutcome.success doc => ⟨handleHtml url doc, 1, 1⟩
         | f => ⟨mapFetchFailure f, 1, 1⟩) := rfl
  rw [hdef, if_neg hne, if_pos hbad]

/-- Witness for the amended C8 at a concrete rejected url string. -/
theorem claim_C8_witness :
    ("not a url" : String) ≠ "" ∧ exUrlFalse "not a url" = false ∧
    POSTmodel (some "not a url") exUrlFalse exFetch =
      ⟨Response.error "Invalid URL format" 400, 0, 1⟩ :=
  ⟨by decide, rfl,
   claim_C8_validation_before_fetch "not a url" exUrlFalse exFetch (by decide) rfl⟩

/-- C9: whenever the extracted content passes the length gate of the
handler, the word count of the source, computed as the length of the
whitespace split of the extracted content, equals the number of
whitespace-delimited tokens of that content. -/
theorem claim_C9_word_count (doc : NodeList)
    (hgate : 100 ≤ (extractTextFromHtml doc).length) :
    wordCountOf (extractTextFromHtml doc) =
      (whitespaceTokens (extractTextFromHtml doc).data).length := by
  rcases extractOutput_cases doc with h | ⟨hdata, _⟩
  · rw [h] at hgate
    exact absurd hgate (by decide)
  · have hL : trimL (collapseWs (selectContent doc).data) ≠ [] := by
      intro hnil
      have h0 : (extractTextFromHtml doc).length = 0 := by
        show (extractTextFromHtml doc).data.length = 0
        rw [hdata, hnil]
        rfl
      omega
    unfold wordCountOf whitespaceTokens
    rw [hdata,
      jsSplitRuns_eq_runsGo isWsChar _ hL
        (fun c hc => trimL_head _ c hc)
        (fun c hc => trimL_getLast _ c hc)]

set_option maxRecDepth 40000 in
/-- Witness for C9 at a concrete document whose content passes the length
gate. -/
theorem claim_C9_witness :
    100 ≤ (extractTextFromHtml exDocC9).length ∧
    wordCountOf (extractTextFromHtml exDocC9) =
      (whitespaceTokens (extractTextFromHtml exDocC9).data).length :=
  ⟨by decide, claim_C9_word_count exDocC9 (by decide)⟩

/-! ## Lemmas for the translator claims -/

/-- applyDict leaves a run unchanged when the whole property read misses. -/
theorem applyDict_none (d : List (String × String)) (run : List Char)
    (h : (jsLookup d (lowerS run)).isNone = true) : applyDict d run = run := by
  unfold applyDict
  cases hd : jsLookup d (lowerS run) with
  | none => rfl
  | some v => rw [hd] at h; simp at h

/-- The translator distributes over an append whose right part is empty or
starts with a non-word character. -/
theorem trSplit (d : List (String × String)) (tail : List Char)
    (htail : tail = [] ∨ ∃ c cs, tail = c :: cs ∧ isWordChar c = false) :
    ∀ l : List Char,
      (trGo d (l ++ tail) = trGo d l ++ trGo d tail) ∧
      (∀ cur, trWord d cur (l ++ tail) = trWord d cur l ++ trGo d tail)
  | [] => by
    constructor
    · simp [trGo]
    · intro cur
      rcases htail with rfl | ⟨c, cs, rfl, hc⟩
      · simp [trWord, trGo]
      · show trWord d cur (c :: cs) = trWord d cur [] ++ trGo d (c :: cs)
        simp [trWord, trGo, hc]
  | a :: l2 => by
    have IH := trSplit d tail htail l2
    constructor
    · by_cases ha : isWordChar a = true
      · show trGo d (a :: (l2 ++ tail)) = trGo d (a :: l2) ++ trGo d tail
        simp only [trGo, ha, if_true]
        exact IH.2 [a]
      · have ha2 : isWordChar a = false := Bool.eq_false_iff.mpr ha
        show trGo d (a :: (l2 ++ tail)) = trGo d (a :: l2) ++ trGo d tail
        simp only [trGo, ha2, Bool.false_eq_true, if_false]
        rw [IH.1]
        simp
    · intro cur
      by_cases ha : isWordChar a = true
      · show trWord d cur (a :: (l2 ++ tail)) = trWord d cur (a :: l2) ++ trGo d tail
        simp only [trWord, ha, if_true]
        exact IH.2 (a :: cur)
      · have ha2 : isWordChar a = false := Bool.eq_false_iff.mpr ha
        show trWord d cur (a :: (l2 ++ tail)) = trWord d cur (a :: l2) ++ trGo d tail
        simp only [trWord, ha2, Bool.false_eq_true, if_false]
        rw [IH.1]
        simp

/-- On a pure word run the collecting state reduces to one lookup. -/
theorem trWord_all_word (d : List (String × String)) :
    ∀ (rs : List Char) (cur : List Char), (∀ c ∈ rs, isWordChar c = true) →
      trWord d cur rs = applyDict d (cur.reverse ++ rs)
  | [], cur => by intro _; simp [trWord]
  | c :: rs, cur => by
    intro h
    have hc : isWordChar c = true := h c (by simp)
    simp only [trWord, hc, if_true]
    rw [trWord_all_word d rs (c :: cur) (fun x hx => h x (by simp [hx]))]
    simp

/-- The translator maps a non-empty pure word run to its substitution. -/
theorem trGo_all_word (d : List (String × String)) (run : List Char) (hne : run ≠ [])
    (hw : ∀ c ∈ run, isWordChar c = true) : trGo d run = applyDict d run := by
  cases run with
  | nil => exact absurd rfl hne
  | cons c rs =>
    have hc := hw c (by simp)
    simp only [trGo, hc, if_true]
    rw [trWord_all_word d rs [c] (fun x hx => hw x (by simp [hx]))]
    rfl

/-- The translator fixes every string none of whose word runs hits the
property read. -/
theorem trIdAux (d : List (String × String)) :
    ∀ l : List Char,
      ((∀ r ∈ runsGo (fun c => !isWordChar c) l, (jsLookup d (lowerS r)).isNone = true) →
        trGo d l = l) ∧
      (∀ cur, (∀ r ∈ runsCollect (fun c => !isWordChar c) cur l,
          (jsLookup d (lowerS r)).isNone = true) →
        trWord d cur l = cur.reverse ++ l)
  | [] => by
    constructor
    · intro _; rfl
    · intro cur h
      show applyDict d cur.reverse = cur.reverse ++ []
      rw [List.append_nil]
      exact applyDict_none d cur.reverse (h cur.reverse (by simp [runsCollect]))
  | c :: cs => by
    have IH := trIdAux d cs
    constructor
    · intro h
      by_cases hc : isWordChar c = true
      · simp only [trGo, hc, if_true]
        have h2 : ∀ r ∈ runsCollect (fun c => !isWordChar c) [c] cs,
            (jsLookup d (lowerS r)).isNone = true := by
          intro r hr
          apply h
          simp only [runsGo, hc, Bool.not_true, Bool.false_eq_true, if_false]
          exact hr
        have := IH.2 [c] h2
        rw [this]
        rfl
      · have hc2 : isWordChar c = false := Bool.eq_false_iff.mpr hc
        simp only [trGo, hc2, Bool.false_eq_true, if_false]
        have h2 : ∀ r ∈ runsGo (fun c => !isWordChar c) cs,
            (jsLookup d (lowerS r)).isNone = true := by
          intro r hr
          apply h
          simp only [runsGo, hc2, Bool.not_false, if_true]
          exact hr
        rw [IH.1 h2]
    · intro cur h
      by_cases hc : isWordChar c = true
      · simp only [trWord, hc, if_true]
        have h2 : ∀ r ∈ runsCollect (fun c => !isWordChar c) (c :: cur) cs,
            (jsLookup d (lowerS r)).isNone = true := by
          intro r hr
          apply h
          simp only [runsCollect, hc, Bool.not_true, Bool.false_eq_true, if_false]
          exact hr
        rw [IH.2 (c :: cur) h2]
        simp
      · have hc2 : isWordChar c = false := Bool.eq_false_iff.mpr hc
        simp only [trWord, hc2, Bool.false_eq_true, if_false]
        have hhead : (jsLookup d (lowerS cur.reverse)).isNone = true := by
          apply h
          simp only [runsCollect, hc2, Bool.not_false, if_true]
          exact List.mem_cons_self _ _
        have h2 : ∀ r ∈ runsGo (fun c => !isWordChar c) cs,
            (jsLookup d (lowerS r)).isNone = true := by
          intro r hr
          apply h
          simp only [runsCollect, hc2, Bool.not_false, if_true]
          exact List.mem_cons_of_mem _ hr
        rw [applyDict_none d cur.reverse hhead, IH.1 h2]

/-- An own-property hit names a stored entry. -/
theorem dictLookup_mem (d : List (String × String)) (k v : String)
    (h : dictLookup d k = some v) : ∃ p ∈ d, p.2 = v := by
  unfold dictLookup at h
  cases hf : d.find? (fun p => p.1 == k) with
  | none => rw [hf] at h; simp at h
  | some p =>
    rw [hf] at h
    simp only [Option.map_some'] at h
    exact ⟨p, List.mem_of_find?_eq_some hf, by injection h⟩

/-- A property-read hit names an own entry or an inherited prototype
entry. -/
theorem jsLookup_mem (d : List (String × String)) (k v : String)
    (h : jsLookup d k = some v) : ∃ p ∈ d ++ protoProps, p.2 = v := by
  unfold jsLookup at h
  cases ho : dictLookup d k with
  | some w =>
    rw [ho] at h
    simp only at h
    have hw : w = v := by injection h
    obtain ⟨p, hp, hpv⟩ := dictLookup_mem d k w ho
    exact ⟨p, List.mem_append_left _ hp, by rw [hpv, hw]⟩
  | none =>
    rw [ho] at h
    simp only at h
    obtain ⟨p, hp, hpv⟩ := dictLookup_mem protoProps k v h
    exact ⟨p, List.mem_append_right _ hp, hpv⟩

/-- Under the strengthened condition, every word run of a substituted value,
own or inherited, misses the whole property read. -/
theorem lookup_value_runs (d : List (String × String))
    (hcond : valuesRunsAbsent d = true) (k : String) (v : String)
    (h : jsLookup d k = some v) :
    ∀ r ∈ wordRuns v.data, (jsLookup d (lowerS r)).isNone = true := by
  obtain ⟨p, hp, hpv⟩ := jsLookup_mem d k v h
  unfold valuesRunsAbsent at hcond
  rw [List.all_eq_true] at hcond
  have hall := hcond p hp
  rw [List.all_eq_true] at hall
  intro r hr
  apply hall
  rw [hpv]
  exact hr

/-- Under the strengthened condition, the translator fixes every
substitution result of a non-empty pure word run. -/
theorem trGo_applyDict (d : List (String × String))
    (hcond : valuesRunsAbsent d = true) (run : List Char)
    (hne : run ≠ []) (hw : ∀ c ∈ run, isWordChar c = true) :
    trGo d (applyDict d run) = applyDict d run := by
  cases hd : jsLookup d (lowerS run) with
  | none =>
    have happ : applyDict d run = run := applyDict_none d run (by rw [hd]; rfl)
    rw [happ, trGo_all_word d run hne hw, happ]
  | some v =>
    have happ : applyDict d run = (if v = "" then run else v.data) := by
      unfold applyDict
      rw [hd]
    by_cases hv : v = ""
    · rw [happ, if_pos hv, trGo_all_word d run hne hw, happ, if_pos hv]
    · rw [happ, if_neg hv]
      apply (trIdAux d v.data).1
      intro r hr
      exact lookup_value_runs d hcond (lowerS run) v hd r hr

/-- Idempotence of the translator under the strengthened condition, jointly
for both scanning states. -/
theorem trIdem (d : List (String × String)) (hcond : valuesRunsAbsent d = true) :
    ∀ l : List Char,
      (trGo d (trGo d l) = trGo d l) ∧
      (∀ cur, cur ≠ [] → (∀ c ∈ cur, isWordChar c = true) →
        trGo d (trWord d cur l) = trWord d cur l)
  | [] => by
    constructor
    · rfl
    · intro cur hne hw
      show trGo d (applyDict d cur.reverse) = applyDict d cur.reverse
      refine trGo_applyDict d hcond cur.reverse ?_ ?_
      · intro hnil
        exact hne (by simpa using congrArg List.reverse hnil)
      · intro c hcm
        exact hw c (by simpa using hcm)
  | c :: cs => by
    have IH := trIdem d hcond cs
    constructor
    · by_cases hc : isWordChar c = true
      · simp only [trGo, hc, if_true]
        exact IH.2 [c] (by simp) (by intro x hx; simp at hx; rw [hx]; exact hc)
      · have hc2 : isWordChar c = false := Bool.eq_false_iff.mpr hc
        have hstep : ∀ l : List Char, trGo d (c :: l) = c :: trGo d l := by
          intro l
          rw [trGo]
          simp only [hc2, Bool.false_eq_true, if_false]
        rw [hstep cs, hstep (trGo d cs), IH.1]
    · intro cur hne hw
      by_cases hc : isWordChar c = true
      · simp only [trWord, hc, if_true]
        refine IH.2 (c :: cur) (by simp) ?_
        intro x hx
        rcases List.mem_cons.mp hx with hx | hx
        · rw [hx]; exact hc
        · exact hw x hx
      · have hc2 : isWordChar c = false := Bool.eq_false_iff.mpr hc
        simp only [trWord, hc2, Bool.false_eq_true, if_false]
        have hsplit := (trSplit d (c :: trGo d cs)
          (Or.inr ⟨c, trGo d cs, rfl, hc2⟩) (applyDict d cur.reverse)).1
        rw [hsplit]
        have hself : trGo d (applyDict d cur.reverse) = applyDict d cur.reverse := by
          refine trGo_applyDict d hcond cur.reverse ?_ ?_
          · intro hnil
            exact hne (by simpa using congrArg List.reverse hnil)
          · intro x hxm
            exact hw x (by simpa using hxm)
        have hstep : trGo d (c :: trGo d cs) = c :: trGo d (trGo d cs) := by
          rw [trGo]
          simp only [hc2, Bool.false_eq_true, if_false]
        rw [hself, hstep, IH.1]

/-- C4 counterexample: two dictionaries whose replacement values, as whole
strings, are all absent from the key set, yet translating twice differs
from translating once.  In the first, a value contains another key as a
word run and is re-substituted on the second pass; in the second, a value
is the name of an inherited prototype property, which the second pass reads
as a truthy inherited value and substitutes. -/
theorem claim_C4_counterexample :
    (claimedValuesAbsent exDictC4 = true ∧
     translateWith exDictC4 (translateWith exDictC4 "a") ≠ translateWith exDictC4 "a") ∧
    (claimedValuesAbsent exDictProto = true ∧
     translateWith exDictProto (translateWith exDictProto "x") ≠
       translateWith exDictProto "x") :=
  ⟨⟨by decide, by decide⟩, ⟨by decide, by decide⟩⟩

/-- C4 (amended): translating twice equals translating once for every text
and every dictionary in which each maximal word-character run of each
replacement value — the string coercions of the inherited prototype values
included, since a prototype hit substitutes them — lowercased, misses the
whole property read, own keys and inherited prototype names alike. -/
theorem claim_C4_translate_idempotent (d : List (String × String)) (t : String)
    (hcond : valuesRunsAbsent d = true) :
    translateWith d (translateWith d t) = translateWith d t := by
  show (⟨trGo d (trGo d t.data)⟩ : String) = ⟨trGo d t.data⟩
  rw [(trIdem d hcond t.data).1]

/-- Witness for the amended C4: the dictionary of the source satisfies the
run condition and translation with it is idempotent on a sample text. -/
theorem claim_C4_witness :
    valuesRunsAbsent translationDict = true ∧
    translateToUrdu (translateToUrdu "the cat is here") =
      translateToUrdu "the cat is here" :=
  ⟨by decide, claim_C4_translate_idempotent translationDict "the cat is here" (by decide)⟩

/-- Every inherited prototype value has a non-empty string coercion. -/
theorem protoValues_nonempty : ∀ p ∈ protoProps, p.2 ≠ "" := by decide

/-- When every stored replacement value is non-empty, the substitution of
the source on one word run agrees with the per-segment substitution with the
full property read: inherited values are never empty, so the falsy fallback
of the source only fires when the read misses entirely. -/
theorem applyDict_eq_spec (d : List (String × String)) (hvals : valuesNonempty d = true)
    (run : List Char) : applyDict d run = renderSegClaimJs d (Seg.word run) := by
  have hl : applyDict d run =
      (match jsLookup d (lowerS run) with
       | some v => if v = "" then run else v.data
       | none => run) := rfl
  have hr : renderSegClaimJs d (Seg.word run) =
      (match jsLookup d (lowerS run) with
       | some v => v.data
       | none => run) := rfl
  rw [hl, hr]
  cases hd : jsLookup d (lowerS run) with
  | none => rfl
  | some v =>
    have hvne : v ≠ "" := by
      obtain ⟨p, hp, hpv⟩ := jsLookup_mem d (lowerS run) v hd
      rcases List.mem_append.mp hp with hp | hp
      · unfold valuesNonempty at hvals
        rw [List.all_eq_true] at hvals
        have := hvals p hp
        rw [hpv] at this
        simp at this
        exact this
      · rw [← hpv]
        exact protoValues_nonempty p hp
    simp only [if_neg hvne]

/-- When every replacement value is non-empty, the translator agrees with
the segment-wise substitution, jointly for all three scanning states. -/
theorem trSeg (d : List (String × String)) (hvals : valuesNonempty d = true) :
    ∀ l : List Char,
      (trGo d l = ((segGo l).map (renderSegClaimJs d)).flatten) ∧
      (∀ cur, trWord d cur l = ((segWord cur l).map (renderSegClaimJs d)).flatten) ∧
      (∀ cur, ((segSep cur l).map (renderSegClaimJs d)).flatten = cur.reverse ++ trGo d l)
  | [] => by
    refine ⟨rfl, ?_, ?_⟩
    · intro cur
      show applyDict d cur.reverse = ((segWord cur []).map (renderSegClaimJs d)).flatten
      simp only [segWord, List.map_cons, List.map_nil, List.flatten]
      rw [applyDict_eq_spec d hvals cur.reverse]
      simp
    · intro cur
      simp [segSep, trGo, renderSegClaimJs]
  | c :: cs => by
    have IH := trSeg d hvals cs
    refine ⟨?_, ?_, ?_⟩
    · by_cases hc : isWordChar c = true
      · simp only [trGo, segGo, hc, if_true]
        exact IH.2.1 [c]
      · have hc2 : isWordChar c = false := Bool.eq_false_iff.mpr hc
        simp only [trGo, segGo, hc2, Bool.false_eq_true, if_false]
        rw [IH.2.2 [c]]
        rfl
    · intro cur
      by_cases hc : isWordChar c = true
      · simp only [trWord, segWord, hc, if_true]
        exact IH.2.1 (c :: cur)
      · have hc2 : isWordChar c = false := Bool.eq_false_iff.mpr hc
        simp only [trWord, segWord, hc2, Bool.false_eq_true, if_false,
          List.map_cons, List.flatten_cons]
        rw [IH.2.2 [c], ← applyDict_eq_spec d hvals cur.reverse]
        rfl
    · intro cur
      by_cases hc : isWordChar c = true
      · simp only [segSep, trGo, hc, if_true, List.map_cons, List.flatten_cons]
        rw [IH.2.1 [c]]
        rfl
      · have hc2 : isWordChar c = false := Bool.eq_false_iff.mpr hc
        simp only [segSep, trGo, hc2, Bool.false_eq_true, if_false]
        rw [IH.2.2 (c :: cur)]
        simp

/-- C5 counterexample: the claimed per-segment substitution, with runs not
in the dictionary left unchanged, diverges from the source twice over.
With a dictionary storing an empty replacement value the source keeps the
matched run while the claim replaces it by the empty string; and a run
naming an inherited prototype property is not a dictionary key, so the
claim keeps it, while the source reads the truthy inherited value and
replaces the run. -/
theorem claim_C5_counterexample :
    (translateWith exDictEmptyVal "a" = "a" ∧
     specTranslate exDictEmptyVal "a" = "" ∧
     translateWith exDictEmptyVal "a" ≠ specTranslate exDictEmptyVal "a") ∧
    (specTranslate exDict "constructor" = "constructor" ∧
     translateWith exDict "constructor" ≠ "constructor") :=
  ⟨⟨by decide, by decide, by decide⟩, ⟨by decide, by decide⟩⟩

/-- C5 (amended): whenever every stored replacement value is non-empty, the
translator replaces each maximal word-character run whose lowercased form is
an own dictionary key by the stored replacement with its stored casing,
replaces a run whose lowercased form instead names an inherited property of
the base object prototype by the string coercion of that inherited value,
keeps every other run, and passes every non-word span through verbatim in
its original position; in particular the translator maps the greeting
example to its substituted form. -/
theorem claim_C5_translator_segments :
    (∀ (d : List (String × String)) (t : String), valuesNonempty d = true →
      translateWith d t = specTranslateJs d t) ∧
    translateWith exDict "Hello, world!" = "سلام, دنیا!" := by
  constructor
  · intro d t hvals
    show (⟨trGo d t.data⟩ : String) = ⟨((segGo t.data).map (renderSegClaimJs d)).flatten⟩
    rw [(trSeg d hvals t.data).1]
  · decide

/-- Witness for the amended C5 at the example dictionary of the claims. -/
theorem claim_C5_witness :
    valuesNonempty exDict = true ∧
    translateWith exDict "Hello, world!" = specTranslateJs exDict "Hello, world!" :=
  ⟨by decide, claim_C5_translator_segments.1 exDict "Hello, world!" (by decide)⟩
